import Mathlib

/-!
# Verification of the math-melody MIDI generation engine

Shallow embedding of the value-to-music mapping engine of the
`math_melody_generator` package:

* `src/midi_synthesizer/scales.py` — the scale table and `quantize_to_scale`;
* `src/midi_synthesizer/midi_generator.py` — pitch mapping, range fitting,
  chord building and the note/bend scheduler `function_to_midi`;
* `main.py` — the safe expression evaluator `SafeMathEvaluator` and the
  driver `generate_midi_from_function_string`.

Modelling conventions:

* Python `float` is idealised as `ℚ` (exact arithmetic); Python `int` is `ℤ`.
* Python `//` and `%` on integers (floor division, nonnegative remainder for
  a positive divisor) coincide with Lean's `Int` `/` (`Int.ediv`) and `%`
  (`Int.emod`) for the positive divisor `12` used throughout.
* Python's built-in `round` rounds halves to even; embedded as `pyRound`.
* `random.uniform` / `random.randint` draws are injected as explicit
  functions `Nat → ℚ` / `Nat → ℤ` of the loop index (the engine reads at
  most one draw of each kind per step).
* The transcendental functions of Python's `math` module (irrational in
  general) are parameters of the embedding (`MathBackend`); theorems assume
  only facts that hold for the real implementations (e.g. `sin 0 = 0`,
  `log` rejects non-positive arguments with `ValueError`).
* The `midiutil.MIDIFile` collaborator is modelled as lists of accumulated
  events (`MIDIFile` below), per the spec's boundary contract.
* Division by exact zero raises `ZeroDivisionError`, matching Python's
  `int`/`float` semantics (what the spec's direct-call examples exercise).
  NumPy float64 scalars, for which `1/np.float64(0.0)` is `inf` instead,
  are outside the embedding; no theorem below depends on the difference.
-/

/-! ## Generic small helpers -/

/-- Python's built-in `round`: round half to even (banker's rounding). -/
def pyRound (q : ℚ) : ℤ :=
  let f := ⌊q⌋
  let r := q - f
  if r < 1 / 2 then f
  else if 1 / 2 < r then f + 1
  else if 2 ∣ f then f else f + 1

/-- One step of Python's `min(..., key=...)` left fold: keep the current
best, replace only on a strictly smaller key (first minimum wins ties). -/
def minByStep (key : ℤ → ℤ) (best y : ℤ) : ℤ :=
  if key y < key best then y else best

/-- Python `min(l, key=key)`: first element of `l` with minimal key;
`none` on the empty list (where Python would raise `ValueError`). -/
def pyMinBy (key : ℤ → ℤ) : List ℤ → Option ℤ
  | [] => none
  | x :: xs => some (xs.foldl (minByStep key) x)

/-! ## `scales.py` -/

/-- The static scale table `SCALES` of `scales.py`, verbatim:
semitone offsets from the root for each named scale. -/
def SCALES : List (String × List ℤ) :=
  [("chromatic", [0, 1, 2, 3, 4, 5, 6, 7, 8, 9, 10, 11]),
   ("major", [0, 2, 4, 5, 7, 9, 11]),
   ("minor", [0, 2, 3, 5, 7, 8, 10]),
   ("pentatonic_major", [0, 2, 4, 7, 9]),
   ("pentatonic_minor", [0, 3, 5, 7, 10]),
   ("dorian", [0, 2, 3, 5, 7, 9, 10]),
   ("phrygian", [0, 1, 3, 5, 7, 8, 10]),
   ("lydian", [0, 2, 4, 6, 7, 9, 11]),
   ("mixolydian", [0, 2, 4, 5, 7, 9, 10]),
   ("locrian", [0, 1, 3, 5, 6, 8, 10]),
   ("blues", [0, 3, 5, 6, 7, 10]),
   ("harmonic_minor", [0, 2, 3, 5, 7, 8, 11]),
   ("melodic_minor", [0, 2, 3, 5, 7, 9, 11])]

/-- Python dict lookup `SCALES.get(name)` / `name in SCALES`. -/
def scalesLookup (s : String) : Option (List ℤ) :=
  (SCALES.find? (fun p => p.1 == s)).map (fun p => p.2)

/-- `quantize_to_scale(note, root, scale)` of `scales.py`:
unknown scale returns `note` unchanged; otherwise decompose `note - root`
into octave (floor division by 12) and semitone (mod 12), pick the scale
interval closest to the semitone (first minimum wins), and reconstruct. -/
def quantize_to_scale (note : ℤ) (root : ℤ) (scale : String) : ℤ :=
  match scalesLookup scale with
  | none => note
  | some scale_intervals =>
    let octave := (note - root) / 12
    let semitone := (note - root) % 12
    match pyMinBy (fun x => |x - semitone|) scale_intervals with
    | none => note
    | some closest => root + octave * 12 + closest

/-! ## Helper lemmas about the fold behind `pyMinBy` and the scale table -/

theorem minBy_foldl_mem (key : ℤ → ℤ) (l : List ℤ) (b : ℤ) :
    l.foldl (minByStep key) b = b ∨ l.foldl (minByStep key) b ∈ l := by
  induction l generalizing b with
  | nil => left; rfl
  | cons x xs ih =>
    simp only [List.foldl_cons]
    rcases ih (minByStep key b x) with h | h
    · rw [h]
      unfold minByStep
      split
      · right; exact List.mem_cons_self x xs
      · left; rfl
    · right; exact List.mem_cons_of_mem x h

theorem minBy_foldl_le (key : ℤ → ℤ) (l : List ℤ) (b : ℤ) :
    ∀ y : ℤ, y = b ∨ y ∈ l → key (l.foldl (minByStep key) b) ≤ key y := by
  induction l generalizing b with
  | nil =>
    intro y hy
    rcases hy with rfl | h
    · exact le_refl _
    · cases h
  | cons x xs ih =>
    intro y hy
    simp only [List.foldl_cons]
    rcases hy with rfl | hy
    · have h1 := ih (minByStep key y x) (minByStep key y x) (Or.inl rfl)
      refine le_trans h1 ?_
      unfold minByStep
      split
      · omega
      · exact le_refl _
    · rcases List.mem_cons.mp hy with rfl | hy
      · have h1 := ih (minByStep key b y) (minByStep key b y) (Or.inl rfl)
        refine le_trans h1 ?_
        unfold minByStep
        split
        · exact le_refl _
        · omega
      · exact ih (minByStep key b x) y (Or.inr hy)

theorem pyMinBy_mem {key : ℤ → ℤ} {l : List ℤ} {c : ℤ}
    (h : pyMinBy key l = some c) : c ∈ l := by
  match l with
  | [] => cases h
  | x :: xs =>
    simp only [pyMinBy, Option.some.injEq] at h
    rcases minBy_foldl_mem key xs x with h1 | h1
    · rw [h] at h1; rw [h1]; exact List.mem_cons_self x xs
    · rw [h] at h1; exact List.mem_cons_of_mem x h1

theorem pyMinBy_le {key : ℤ → ℤ} {l : List ℤ} {c : ℤ}
    (h : pyMinBy key l = some c) : ∀ y ∈ l, key c ≤ key y := by
  match l with
  | [] => cases h
  | x :: xs =>
    simp only [pyMinBy, Option.some.injEq] at h
    intro y hy
    rw [← h]
    rcases List.mem_cons.mp hy with rfl | hy
    · exact minBy_foldl_le key xs y y (Or.inl rfl)
    · exact minBy_foldl_le key xs x y (Or.inr hy)

/-- If `c` is a member of `l`, `min(l, key=|· - c|)` returns `c` itself:
its key is the unique zero of the key function. -/
theorem pyMinBy_abs_self {l : List ℤ} {c : ℤ} (hc : c ∈ l) :
    pyMinBy (fun x => |x - c|) l = some c := by
  match l with
  | [] => cases hc
  | x :: xs =>
    simp only [pyMinBy, Option.some.injEq]
    have hmem : ∀ r : ℤ, r = x ∨ r ∈ xs → r = x ∨ r ∈ xs := fun _ h => h
    have hres := minBy_foldl_mem (fun x => |x - c|) xs x
    have hle := minBy_foldl_le (fun x => |x - c|) xs x c (List.mem_cons.mp hc)
    simp only [sub_self, abs_zero] at hle
    have h0 : |xs.foldl (minByStep fun x => |x - c|) x - c| = 0 :=
      le_antisymm hle (abs_nonneg _)
    have := abs_eq_zero.mp h0
    omega

/-- Every entry of the scale table is a nonempty list of semitone offsets
in `[0, 11]`. -/
theorem scales_entries_wf :
    ∀ ivs ∈ SCALES.map (fun p => p.2), ivs ≠ [] ∧ ∀ c ∈ ivs, 0 ≤ c ∧ c < 12 := by
  decide

theorem scalesLookup_mem {s : String} {ivs : List ℤ}
    (h : scalesLookup s = some ivs) : ivs ∈ SCALES.map (fun p => p.2) := by
  unfold scalesLookup at h
  cases hf : SCALES.find? (fun p => p.1 == s) with
  | none => rw [hf] at h; cases h
  | some p =>
    rw [hf] at h
    have h2 : p.2 = ivs := Option.some.inj h
    have := List.mem_of_find?_eq_some hf
    rw [← h2]
    exact List.mem_map_of_mem (fun p => p.2) this

theorem scalesLookup_wf {s : String} {ivs : List ℤ}
    (h : scalesLookup s = some ivs) : ivs ≠ [] ∧ ∀ c ∈ ivs, 0 ≤ c ∧ c < 12 :=
  scales_entries_wf ivs (scalesLookup_mem h)

theorem pyMinBy_isSome (key : ℤ → ℤ) {l : List ℤ} (h : l ≠ []) :
    (pyMinBy key l).isSome = true := by
  cases l with
  | nil => exact absurd rfl h
  | cons x xs => rfl

/-- Unfolding of `quantize_to_scale` once the scale lookup succeeds. -/
theorem quantize_eq_of_lookup {s : String} {ivs : List ℤ}
    (h : scalesLookup s = some ivs) (note root : ℤ) :
    quantize_to_scale note root s
      = match pyMinBy (fun x => |x - (note - root) % 12|) ivs with
        | none => note
        | some closest => root + ((note - root) / 12) * 12 + closest := by
  unfold quantize_to_scale
  rw [h]

/-- Structure of `quantize_to_scale` on a known scale: the result is
`root + octave*12 + c` for the `pyMinBy`-selected interval `c ∈ ivs`. -/
theorem quantize_known {s : String} {ivs : List ℤ}
    (h : scalesLookup s = some ivs) (note root : ℤ) :
    ∃ c ∈ ivs, quantize_to_scale note root s
      = root + ((note - root) / 12) * 12 + c := by
  obtain ⟨hne, _⟩ := scalesLookup_wf h
  have hu := quantize_eq_of_lookup h note root
  cases hm : pyMinBy (fun x => |x - (note - root) % 12|) ivs with
  | none =>
    have hs := pyMinBy_isSome (fun x => |x - (note - root) % 12|) hne
    rw [hm] at hs
    cases hs
  | some c =>
    refine ⟨c, pyMinBy_mem hm, ?_⟩
    rw [hu, hm]

/-- On a known scale, `quantize_to_scale` maps a note of the shape
`root + k*12 + c` with `c ∈ ivs`, `0 ≤ c < 12` to itself. -/
theorem quantize_fixes_in_scale {s : String} {ivs : List ℤ}
    (h : scalesLookup s = some ivs) (root k c : ℤ) (hc : c ∈ ivs)
    (h0 : 0 ≤ c) (h1 : c < 12) :
    quantize_to_scale (root + k * 12 + c) root s = root + k * 12 + c := by
  have hdiv : (root + k * 12 + c - root) / 12 = k := by omega
  have hmod : (root + k * 12 + c - root) % 12 = c := by omega
  rw [quantize_eq_of_lookup h, hmod, pyMinBy_abs_self hc, hdiv]

/-! ## C4 -/

/-- C4: scale quantization is idempotent — for every scale name, root and
note, quantizing twice equals quantizing once; and for a scale name not in
the scale table, `quantize_to_scale` returns the note unchanged. -/
theorem quantize_to_scale_idempotent_and_unknown_id (s : String) (root note : ℤ) :
    quantize_to_scale (quantize_to_scale note root s) root s
      = quantize_to_scale note root s
    ∧ (scalesLookup s = none → quantize_to_scale note root s = note) := by
  constructor
  · cases h : scalesLookup s with
    | none => simp [quantize_to_scale, h]
    | some ivs =>
      obtain ⟨c, hc, hq⟩ := quantize_known h note root
      obtain ⟨_, hbounds⟩ := scalesLookup_wf h
      obtain ⟨h0, h1⟩ := hbounds c hc
      rw [hq]
      exact quantize_fixes_in_scale h root ((note - root) / 12) c hc h0 h1
  · intro h
    simp [quantize_to_scale, h]

/-- Witness for C4: "nope" is not in the scale table, and quantization with
it leaves note 77 unchanged; and idempotence holds concretely on the major
scale. -/
theorem quantize_to_scale_idempotent_and_unknown_id_witness :
    scalesLookup "nope" = none ∧ quantize_to_scale 77 60 "nope" = 77
    ∧ quantize_to_scale (quantize_to_scale 61 60 "major") 60 "major"
        = quantize_to_scale 61 60 "major" :=
  ⟨by decide, (quantize_to_scale_idempotent_and_unknown_id "nope" 60 77).2 (by decide),
   (quantize_to_scale_idempotent_and_unknown_id "major" 60 61).1⟩

/-! ## `midi_generator.py`: pitch mapping and range fitting -/

/-- `_scale_values_to_range(function_values, min_note, max_note)`:
swap an inverted range, empty input yields empty output, a constant
input maps to the midpoint, otherwise rescale linearly from the sample
min/max onto `[min_note, max_note]`. -/
def scale_values_to_range (function_values : List ℚ) (min_note max_note : ℤ) : List ℚ :=
  let mn : ℤ := if max_note < min_note then max_note else min_note
  let mx : ℤ := if max_note < min_note then min_note else max_note
  match function_values with
  | [] => []
  | v :: vs =>
    let min_val := vs.foldl min v
    let max_val := vs.foldl max v
    let range_val := max_val - min_val
    if range_val = 0 then
      List.replicate (v :: vs).length (((mn : ℚ) + (mx : ℚ)) / 2)
    else
      (v :: vs).map (fun val =>
        (mn : ℚ) + ((val - min_val) / range_val) * ((mx : ℚ) - (mn : ℚ)))

/-- The first `while` loop of `_fit_to_range`: add 12 while below `mn`. -/
def liftUp (note mn : ℤ) : ℤ :=
  if note < mn then liftUp (note + 12) mn else note
termination_by (mn - note).toNat
decreasing_by omega

/-- The second `while` loop of `_fit_to_range`: subtract 12 while above `mx`. -/
def pushDown (note mx : ℤ) : ℤ :=
  if note > mx then pushDown (note - 12) mx else note
termination_by (note - mx).toNat
decreasing_by omega

/-- `_fit_to_range(note, min_note, max_note)`: swap an inverted range,
octave-shift into range, then clamp as a final safety net. -/
def fit_to_range (note min_note max_note : ℤ) : ℤ :=
  let mn : ℤ := if max_note < min_note then max_note else min_note
  let mx : ℤ := if max_note < min_note then min_note else max_note
  max mn (min mx (pushDown (liftUp note mn) mx))

/-! ### Lemmas about the fold-based list min/max and the while loops -/

theorem foldl_min_le (l : List ℚ) (b : ℚ) :
    ∀ y : ℚ, y = b ∨ y ∈ l → l.foldl min b ≤ y := by
  induction l generalizing b with
  | nil =>
    intro y hy
    rcases hy with rfl | h
    · exact le_refl _
    · cases h
  | cons x xs ih =>
    intro y hy
    simp only [List.foldl_cons]
    rcases hy with rfl | hy
    · exact le_trans (ih (min y x) (min y x) (Or.inl rfl)) (min_le_left y x)
    · rcases List.mem_cons.mp hy with rfl | hy
      · exact le_trans (ih (min b y) (min b y) (Or.inl rfl)) (min_le_right b y)
      · exact ih (min b x) y (Or.inr hy)

theorem foldl_max_ge (l : List ℚ) (b : ℚ) :
    ∀ y : ℚ, y = b ∨ y ∈ l → y ≤ l.foldl max b := by
  induction l generalizing b with
  | nil =>
    intro y hy
    rcases hy with rfl | h
    · exact le_refl _
    · cases h
  | cons x xs ih =>
    intro y hy
    simp only [List.foldl_cons]
    rcases hy with rfl | hy
    · exact le_trans (le_max_left y x) (ih (max y x) (max y x) (Or.inl rfl))
    · rcases List.mem_cons.mp hy with rfl | hy
      · exact le_trans (le_max_right b y) (ih (max b y) (max b y) (Or.inl rfl))
      · exact ih (max b x) y (Or.inr hy)

theorem foldl_min_const (l : List ℚ) (c : ℚ) (hl : ∀ y ∈ l, y = c) :
    l.foldl min c = c := by
  induction l with
  | nil => rfl
  | cons x xs ih =>
    have hx : x = c := hl x (List.mem_cons_self x xs)
    simp only [List.foldl_cons, hx, min_self]
    exact ih (fun y hy => hl y (List.mem_cons_of_mem x hy))

theorem foldl_max_const (l : List ℚ) (c : ℚ) (hl : ∀ y ∈ l, y = c) :
    l.foldl max c = c := by
  induction l with
  | nil => rfl
  | cons x xs ih =>
    have hx : x = c := hl x (List.mem_cons_self x xs)
    simp only [List.foldl_cons, hx, max_self]
    exact ih (fun y hy => hl y (List.mem_cons_of_mem x hy))

theorem liftUp_ge (n mn : ℤ) : mn ≤ liftUp n mn := by
  by_cases h : n < mn
  · rw [liftUp]
    simp only [h, if_true]
    exact liftUp_ge (n + 12) mn
  · rw [liftUp]
    simp only [h, if_false]
    omega
termination_by (mn - n).toNat
decreasing_by omega

theorem liftUp_dvd (n mn : ℤ) : (12 : ℤ) ∣ (liftUp n mn - n) := by
  by_cases h : n < mn
  · rw [liftUp]
    simp only [h, if_true]
    have := liftUp_dvd (n + 12) mn
    omega
  · rw [liftUp]
    simp only [h, if_false, sub_self]
    omega
termination_by (mn - n).toNat
decreasing_by omega

theorem pushDown_le (n mx : ℤ) : pushDown n mx ≤ mx := by
  by_cases h : n > mx
  · rw [pushDown]
    simp only [h, if_true]
    exact pushDown_le (n - 12) mx
  · rw [pushDown]
    simp only [h, if_false]
    omega
termination_by (n - mx).toNat
decreasing_by omega

theorem pushDown_dvd (n mx : ℤ) : (12 : ℤ) ∣ (pushDown n mx - n) := by
  by_cases h : n > mx
  · rw [pushDown]
    simp only [h, if_true]
    have := pushDown_dvd (n - 12) mx
    omega
  · rw [pushDown]
    simp only [h, if_false, sub_self]
    omega
termination_by (n - mx).toNat
decreasing_by omega

/-- With a non-inverted range, `fit_to_range` is the clamp of the
octave-shifted value. -/
theorem fit_to_range_eq (n mn mx : ℤ) (h : mn ≤ mx) :
    fit_to_range n mn mx = max mn (min mx (pushDown (liftUp n mn) mx)) := by
  unfold fit_to_range
  have hsw : ¬ (mx < mn) := not_lt.mpr h
  simp only [if_neg hsw]

/-! ## C6 -/

/-- C6: for `min ≤ max`, `fit_to_range` (a pair of terminating octave-shift
loops followed by a clamp) lands in `[min, max]`; and whenever the final
clamp is not needed (the shifted value is already in range), the result is
that shifted value and differs from the input by a multiple of 12 (the
pitch class is preserved). Totality of `liftUp`/`pushDown` (termination of
the `while` loops) is established by their definitions. -/
theorem fit_to_range_bounds_and_pitch_class (n mn mx : ℤ) (h : mn ≤ mx) :
    mn ≤ fit_to_range n mn mx ∧ fit_to_range n mn mx ≤ mx
    ∧ (mn ≤ pushDown (liftUp n mn) mx →
        fit_to_range n mn mx = pushDown (liftUp n mn) mx
        ∧ (12 : ℤ) ∣ (fit_to_range n mn mx - n)) := by
  rw [fit_to_range_eq n mn mx h]
  have hle : pushDown (liftUp n mn) mx ≤ mx := pushDown_le _ _
  refine ⟨le_max_left _ _, max_le h (le_trans (min_le_left _ _) (le_refl _)), ?_⟩
  intro hg
  have hmin : min mx (pushDown (liftUp n mn) mx) = pushDown (liftUp n mn) mx :=
    min_eq_right hle
  have hmax : max mn (pushDown (liftUp n mn) mx) = pushDown (liftUp n mn) mx :=
    max_eq_right hg
  rw [hmin, hmax]
  refine ⟨rfl, ?_⟩
  have h1 := liftUp_dvd n mn
  have h2 := pushDown_dvd (liftUp n mn) mx
  omega

/-- Witness for C6 at `note = 50`, range `[36, 96]`: the loops leave 50
unchanged, the clamp is not needed, and the pitch class is preserved. -/
theorem fit_to_range_bounds_and_pitch_class_witness :
    (36 : ℤ) ≤ 96
    ∧ fit_to_range 50 36 96 = pushDown (liftUp 50 36) 96
    ∧ (12 : ℤ) ∣ (fit_to_range 50 36 96 - 50) := by
  have hl : liftUp 50 36 = 50 := by rw [liftUp]; norm_num
  have hp : pushDown 50 96 = 50 := by rw [pushDown]; norm_num
  refine ⟨by norm_num, ?_⟩
  exact (fit_to_range_bounds_and_pitch_class 50 36 96 (by norm_num)).2.2
    (by rw [hl, hp]; norm_num)

/-! ## C5 -/

/-- C5: with `min < max`, `_scale_values_to_range` sends the empty list to
the empty list, every output lies in `[min, max]`, and a constant input
list maps to the exact midpoint `(min + max) / 2` everywhere. -/
theorem scale_values_to_range_props (vals : List ℚ) (mn mx : ℤ) (hlt : mn < mx) :
    scale_values_to_range [] mn mx = []
    ∧ (∀ y ∈ scale_values_to_range vals mn mx, (mn : ℚ) ≤ y ∧ y ≤ (mx : ℚ))
    ∧ ((∃ c : ℚ, ∀ v ∈ vals, v = c) →
        ∀ y ∈ scale_values_to_range vals mn mx, y = ((mn : ℚ) + (mx : ℚ)) / 2) := by
  have hsw : ¬ (mx < mn) := not_lt.mpr hlt.le
  have hcast : (mn : ℚ) < (mx : ℚ) := by exact_mod_cast hlt
  have hmid_lo : (mn : ℚ) ≤ ((mn : ℚ) + (mx : ℚ)) / 2 := by linarith
  have hmid_hi : ((mn : ℚ) + (mx : ℚ)) / 2 ≤ (mx : ℚ) := by linarith
  refine ⟨by simp [scale_values_to_range], ?_, ?_⟩
  · intro y hy
    cases vals with
    | nil => simp [scale_values_to_range] at hy
    | cons v vs =>
      simp only [scale_values_to_range, if_neg hsw] at hy
      by_cases hr : vs.foldl max v - vs.foldl min v = 0
      · rw [if_pos hr] at hy
        have := List.eq_of_mem_replicate hy
        rw [this]
        exact ⟨hmid_lo, hmid_hi⟩
      · rw [if_neg hr] at hy
        obtain ⟨val, hval, rfl⟩ := List.mem_map.mp hy
        have hminle : vs.foldl min v ≤ val := foldl_min_le vs v val (List.mem_cons.mp hval)
        have hmaxge : val ≤ vs.foldl max v := foldl_max_ge vs v val (List.mem_cons.mp hval)
        have hrange_nonneg : 0 ≤ vs.foldl max v - vs.foldl min v := by linarith
        have hrange_pos : 0 < vs.foldl max v - vs.foldl min v :=
          lt_of_le_of_ne hrange_nonneg (Ne.symm hr)
        have ht0 : 0 ≤ (val - vs.foldl min v) / (vs.foldl max v - vs.foldl min v) :=
          div_nonneg (by linarith) hrange_nonneg
        have ht1 : (val - vs.foldl min v) / (vs.foldl max v - vs.foldl min v) ≤ 1 :=
          (div_le_one hrange_pos).mpr (by linarith)
        have hspan : (0 : ℚ) ≤ (mx : ℚ) - (mn : ℚ) := by linarith
        constructor
        · have := mul_nonneg ht0 hspan
          linarith
        · have := mul_le_of_le_one_left hspan ht1
          linarith
  · rintro ⟨c, hc⟩ y hy
    cases vals with
    | nil => simp [scale_values_to_range] at hy
    | cons v vs =>
      have hv : v = c := hc v (List.mem_cons_self v vs)
      have hvs : ∀ z ∈ vs, z = c := fun z hz => hc z (List.mem_cons_of_mem v hz)
      have hmin : vs.foldl min v = c := by rw [hv]; exact foldl_min_const vs c hvs
      have hmax : vs.foldl max v = c := by rw [hv]; exact foldl_max_const vs c hvs
      simp only [scale_values_to_range, if_neg hsw, hmin, hmax, sub_self, if_pos] at hy
      exact List.eq_of_mem_replicate hy

/-- Witness for C5 on the constant list `[3, 3]` with range `[36, 96]`. -/
theorem scale_values_to_range_props_witness :
    (36 : ℤ) < 96
    ∧ (∀ v ∈ ([3, 3] : List ℚ), v = 3)
    ∧ ∀ y ∈ scale_values_to_range [3, 3] 36 96, y = (((36 : ℤ) : ℚ) + ((96 : ℤ) : ℚ)) / 2 := by
  refine ⟨by norm_num, by simp, ?_⟩
  exact (scale_values_to_range_props [3, 3] 36 96 (by norm_num)).2.2 ⟨3, by simp⟩

/-! ## `midi_generator.py`: chord builder -/

/-- The `except ValueError` fallback of `_build_diatonic_chord_notes`:
`min(range(len(intervals)), key=lambda j: abs(intervals[j] - base_semitone))`
(first index with minimal key). Dead in practice: the base semitone has
been re-quantized into the scale before the lookup. -/
def argminAbsIdx (l : List ℤ) (t : ℤ) : Nat :=
  (List.range l.length).foldl
    (fun bestJ j => if |l.getD j 0 - t| < |l.getD bestJ 0 - t| then j else bestJ) 0

/-- `_build_diatonic_chord_notes(note_quantized, root, scale_name, chord_mode)`:
`none`/empty mode or unknown scale return the single note; the base note is
re-quantized into the scale if needed; `power` is root + perfect fifth;
`triad`/`seventh` stack scale degrees `idx, idx+2, idx+4(, idx+6)`, wrapping
the degree index modulo the scale length and adding the corresponding
octave offset. -/
def build_diatonic_chord_notes (note_quantized root : ℤ)
    (scale_name chord_mode : String) : List ℤ :=
  if chord_mode = "" ∨ chord_mode = "none" then [note_quantized]
  else
    match scalesLookup scale_name with
    | none => [note_quantized]
    | some intervals =>
      if intervals = [] then [note_quantized]
      else
        let bs0 := (note_quantized - root) % 12
        let nq := if bs0 ∈ intervals then note_quantized
                  else quantize_to_scale note_quantized root scale_name
        let base_semitone := (nq - root) % 12
        let idx := if base_semitone ∈ intervals
                   then intervals.indexOf base_semitone
                   else argminAbsIdx intervals base_semitone
        if chord_mode = "power" then [nq, nq + 7]
        else
          let degrees : List Nat :=
            if chord_mode = "triad" then [idx, idx + 2, idx + 4]
            else if chord_mode = "seventh" then [idx, idx + 2, idx + 4, idx + 6]
            else []
          if degrees = [] then [nq]
          else
            let base_oct := (nq - root) / 12
            let n_scale := intervals.length
            degrees.map (fun d =>
              let deg_oct := d / n_scale
              let deg_idx := d % n_scale
              let semit := intervals.getD deg_idx 0
              root + (base_oct + (deg_oct : ℤ)) * 12 + semit)

/-- The re-quantized base note used by the chord builder. -/
def chordBase (note_quantized root : ℤ) (scale_name : String)
    (intervals : List ℤ) : ℤ :=
  if (note_quantized - root) % 12 ∈ intervals then note_quantized
  else quantize_to_scale note_quantized root scale_name

theorem chordBase_in_scale {s : String} {ivs : List ℤ}
    (h : scalesLookup s = some ivs) (q root : ℤ) :
    (chordBase q root s ivs - root) % 12 ∈ ivs := by
  unfold chordBase
  by_cases hin : (q - root) % 12 ∈ ivs
  · rw [if_pos hin]; exact hin
  · rw [if_neg hin]
    obtain ⟨c, hc, hq⟩ := quantize_known h q root
    obtain ⟨_, hb⟩ := scalesLookup_wf h
    obtain ⟨h0, h1⟩ := hb c hc
    have : (quantize_to_scale q root s - root) % 12 = c := by rw [hq]; omega
    rw [this]; exact hc

/-- Unfolding of the chord builder for a known scale and a chord mode other
than the trivial ones, expressed through `chordBase`. -/
theorem build_chord_eq {s : String} {ivs : List ℤ}
    (h : scalesLookup s = some ivs) (q root : ℤ) (cm : String)
    (hcm1 : ¬ (cm = "" ∨ cm = "none")) :
    build_diatonic_chord_notes q root s cm =
      if ivs = [] then [q]
      else
        let nq := chordBase q root s ivs
        let idx := if (nq - root) % 12 ∈ ivs
                   then ivs.indexOf ((nq - root) % 12)
                   else argminAbsIdx ivs ((nq - root) % 12)
        if cm = "power" then [nq, nq + 7]
        else
          let degrees : List Nat :=
            if cm = "triad" then [idx, idx + 2, idx + 4]
            else if cm = "seventh" then [idx, idx + 2, idx + 4, idx + 6]
            else []
          if degrees = [] then [nq]
          else
            degrees.map (fun d =>
              root + ((nq - root) / 12 + ((d / ivs.length : Nat) : ℤ)) * 12
                + ivs.getD (d % ivs.length) 0) := by
  unfold build_diatonic_chord_notes chordBase
  rw [if_neg hcm1, h]

/-- Every note produced on the `triad`/`seventh` path has its semitone
offset from the root (mod 12) inside the scale's interval set. -/
theorem chord_degree_note_in_scale {s : String} {ivs : List ℤ}
    (h : scalesLookup s = some ivs) (root nq : ℤ) (d : Nat) (hne : ivs ≠ []) :
    (root + ((nq - root) / 12 + ((d / ivs.length : Nat) : ℤ)) * 12
        + ivs.getD (d % ivs.length) 0 - root) % 12 ∈ ivs := by
  obtain ⟨_, hb⟩ := scalesLookup_wf h
  have hlen : 0 < ivs.length := List.length_pos.mpr hne
  have hidx : d % ivs.length < ivs.length := Nat.mod_lt d hlen
  have hget : ivs.getD (d % ivs.length) 0 = ivs[d % ivs.length] :=
    List.getD_eq_getElem ivs 0 hidx
  have hmem : ivs[d % ivs.length] ∈ ivs := List.getElem_mem hidx
  obtain ⟨h0, h1⟩ := hb _ hmem
  have : (root + ((nq - root) / 12 + ((d / ivs.length : Nat) : ℤ)) * 12
      + ivs.getD (d % ivs.length) 0 - root) % 12 = ivs.getD (d % ivs.length) 0 := by
    rw [hget]
    rw [hget] at *
    omega
  rw [this, hget]
  exact hmem

/-! ## C3 -/

/-- C3: for a known scale, the chord builder in `power` mode returns
exactly two notes differing by 7 semitones (equal to
`[note, note + 7]` whenever the input note's pitch class is in scale);
`triad` returns exactly 3 notes and `seventh` exactly 4; and every
`triad`/`seventh` note's semitone offset from the root (mod 12) is a
member of the scale's interval set. -/
theorem build_chord_counts_and_scale_membership {s : String} {ivs : List ℤ}
    (h : scalesLookup s = some ivs) (q root : ℤ) :
    (∃ a : ℤ, build_diatonic_chord_notes q root s "power" = [a, a + 7]
       ∧ ((q - root) % 12 ∈ ivs →
            build_diatonic_chord_notes q root s "power" = [q, q + 7]))
    ∧ (build_diatonic_chord_notes q root s "triad").length = 3
    ∧ (build_diatonic_chord_notes q root s "seventh").length = 4
    ∧ (∀ m ∈ build_diatonic_chord_notes q root s "triad", (m - root) % 12 ∈ ivs)
    ∧ (∀ m ∈ build_diatonic_chord_notes q root s "seventh", (m - root) % 12 ∈ ivs) := by
  obtain ⟨hne, hb⟩ := scalesLookup_wf h
  have hp := build_chord_eq h q root "power" (by simp)
  have ht := build_chord_eq h q root "triad" (by simp)
  have hsv := build_chord_eq h q root "seventh" (by simp)
  rw [if_neg hne] at hp ht hsv
  simp only [reduceIte, String.reduceEq] at hp ht hsv
  refine ⟨⟨chordBase q root s ivs, hp, ?_⟩, ?_, ?_, ?_, ?_⟩
  · intro hin
    rw [hp]
    unfold chordBase
    rw [if_pos hin]
  · rw [ht]; rfl
  · rw [hsv]; rfl
  · intro m hm
    rw [ht] at hm
    obtain ⟨d, _, rfl⟩ := List.mem_map.mp hm
    exact chord_degree_note_in_scale h root (chordBase q root s ivs) d hne
  · intro m hm
    rw [hsv] at hm
    obtain ⟨d, _, rfl⟩ := List.mem_map.mp hm
    exact chord_degree_note_in_scale h root (chordBase q root s ivs) d hne

/-- Witness for C3 on the major scale with root 60 and note 64 (in scale). -/
theorem build_chord_counts_and_scale_membership_witness :
    scalesLookup "major" = some [0, 2, 4, 5, 7, 9, 11]
    ∧ (64 - 60) % 12 ∈ ([0, 2, 4, 5, 7, 9, 11] : List ℤ)
    ∧ build_diatonic_chord_notes 64 60 "major" "power" = [64, 64 + 7]
    ∧ (build_diatonic_chord_notes 64 60 "major" "triad").length = 3 := by
  have h : scalesLookup "major" = some [0, 2, 4, 5, 7, 9, 11] := by decide
  have hin : (64 - 60 : ℤ) % 12 ∈ ([0, 2, 4, 5, 7, 9, 11] : List ℤ) := by decide
  obtain ⟨⟨a, _, hpw⟩, htr, _, _, _⟩ :=
    build_chord_counts_and_scale_membership h 64 60
  exact ⟨h, hin, hpw hin, htr⟩

/-! ## `midi_generator.py`: the MIDIFile event model and the scheduler -/

/-- A scheduled note event (`midiutil.MIDIFile.addNote` arguments). -/
structure NoteEvent where
  channel : ℤ
  pitch : ℤ
  time : ℚ
  duration : ℚ
  velocity : ℤ
deriving DecidableEq

/-- A pitch-wheel event (`addPitchWheelEvent` arguments). -/
structure BendEvent where
  channel : ℤ
  time : ℚ
  value : ℤ
deriving DecidableEq

/-- A controller event (`addControllerEvent` arguments). -/
structure CtrlEvent where
  channel : ℤ
  time : ℚ
  controller : ℤ
  value : ℤ
deriving DecidableEq

/-- The `midiutil.MIDIFile` collaborator, modelled as the ordered lists of
events accumulated on its single track. -/
structure MIDIFile where
  trackNames : List (ℚ × String)
  tempos : List (ℚ × ℤ)
  programChanges : List (ℚ × ℤ)
  controllers : List CtrlEvent
  notes : List NoteEvent
  bends : List BendEvent
deriving DecidableEq

def MIDIFile.empty : MIDIFile := ⟨[], [], [], [], [], []⟩

def MIDIFile.addTrackName (m : MIDIFile) (time : ℚ) (name : String) : MIDIFile :=
  { m with trackNames := m.trackNames ++ [(time, name)] }

def MIDIFile.addTempo (m : MIDIFile) (time : ℚ) (tempo : ℤ) : MIDIFile :=
  { m with tempos := m.tempos ++ [(time, tempo)] }

def MIDIFile.addProgramChange (m : MIDIFile) (time : ℚ) (program : ℤ) : MIDIFile :=
  { m with programChanges := m.programChanges ++ [(time, program)] }

def MIDIFile.addControllerEvent (m : MIDIFile) (channel : ℤ) (time : ℚ)
    (controller value : ℤ) : MIDIFile :=
  { m with controllers := m.controllers ++ [⟨channel, time, controller, value⟩] }

def MIDIFile.addNote (m : MIDIFile) (channel pitch : ℤ) (time duration : ℚ)
    (velocity : ℤ) : MIDIFile :=
  { m with notes := m.notes ++ [⟨channel, pitch, time, duration, velocity⟩] }

def MIDIFile.addPitchWheelEvent (m : MIDIFile) (channel : ℤ) (time : ℚ)
    (value : ℤ) : MIDIFile :=
  { m with bends := m.bends ++ [⟨channel, time, value⟩] }

/-- The keyword parameters of `function_to_midi` (the spec's Generation
Configuration, minus the function string / sampling fields consumed by the
caller). -/
structure GenConfig where
  tempo : ℤ
  velocity : ℤ
  note_duration : ℚ
  instrument : ℤ
  transpose : ℤ
  microtonal : Bool
  bend_range_semitones : ℤ
  reset_bend_after_note : Bool
  scale : String
  root : ℤ
  min_note : ℤ
  max_note : ℤ
  rhythm_pattern : Option (List ℚ)
  swing : ℚ
  humanize_timing : ℚ
  humanize_velocity : ℤ
  chord_mode : String
  track_name : String
  channel : ℤ

/-- `pattern = rhythm_pattern if (rhythm_pattern and len(rhythm_pattern) > 0)
else None`. -/
def activePattern (cfg : GenConfig) : Option (List ℚ) :=
  match cfg.rhythm_pattern with
  | some p => if p.length > 0 then some p else none
  | none => none

/-- The resolved duration for step `i`: the cycled rhythm-pattern entry if a
non-empty pattern is configured, else the base duration; a non-positive
resolved duration is replaced by `max(0.1, note_duration)`. -/
def stepDuration (cfg : GenConfig) (i : Nat) : ℚ :=
  let d := match activePattern cfg with
    | some p => p.getD (i % p.length) 0
    | none => cfg.note_duration
  if d ≤ 0 then max (1 / 10) cfg.note_duration else d

/-- The onset for step `i` from running time `t`: swing delays odd steps by
`min(1, swing) * 0.5` beats when `swing > 0`; humanize-timing adds the
step's uniform draw when `humanize_timing > 0`. -/
def stepStartTime (cfg : GenConfig) (randU : Nat → ℚ) (i : Nat) (t : ℚ) : ℚ :=
  let st := t
  let st := if cfg.swing > 0 ∧ i % 2 = 1 then st + max 0 (min 1 cfg.swing) * (1 / 2)
            else st
  if cfg.humanize_timing > 0 then st + randU i else st

/-- The velocity for step `i`: the base velocity, with the step's integer
draw added and clamped to `[1, 127]` when `humanize_velocity > 0`. -/
def stepVelocity (cfg : GenConfig) (randI : Nat → ℤ) (i : Nat) : ℤ :=
  if cfg.humanize_velocity > 0
  then max 1 (min 127 (cfg.velocity + randI i))
  else cfg.velocity

/-- The `bend_range_semitones <= 0` guard inside the microtonal branch. -/
def microBendRange (b : ℤ) : ℤ := if b ≤ 0 then 2 else b

/-- The 14-bit pitch-bend value of the microtonal branch:
`round(8192 + clamp(deviation / bend_range, -1, 1) * 8192)` clamped to
`[0, 16383]`, where `deviation = note_float - round(note_float)`. -/
def bend14 (note_float : ℚ) (bend_range_semitones : ℤ) : ℤ :=
  let base_note := pyRound note_float
  let deviation := note_float - (base_note : ℚ)
  let ratio := max (-1) (min 1 (deviation / (microBendRange bend_range_semitones : ℚ)))
  max 0 (min 16383 (pyRound (8192 + ratio * 8192)))

/-- The condition guarding the microtonal monophonic path:
`microtonal and (not chord_mode or chord_mode == "none")`. -/
def microPath (cfg : GenConfig) : Prop :=
  cfg.microtonal = true ∧ (cfg.chord_mode = "" ∨ cfg.chord_mode = "none")

instance (cfg : GenConfig) : Decidable (microPath cfg) := by
  unfold microPath
  infer_instance

/-- The body of the `for i, note in enumerate(midi_notes)` loop of
`function_to_midi`, for one step (everything except the final
`current_time += duration`). -/
def scheduleStep (cfg : GenConfig) (randU : Nat → ℚ) (randI : Nat → ℤ)
    (i : Nat) (t : ℚ) (note : ℚ) (m : MIDIFile) : MIDIFile :=
  let duration := stepDuration cfg i
  let start_time := stepStartTime cfg randU i t
  let vel := stepVelocity cfg randI i
  let note_float := note + (cfg.transpose : ℚ)
  let base_note := pyRound note_float
  if microPath cfg then
    let m := m.addPitchWheelEvent cfg.channel start_time
      (bend14 note_float cfg.bend_range_semitones)
    let note_clamped := fit_to_range base_note cfg.min_note cfg.max_note
    let m := m.addNote cfg.channel note_clamped start_time duration vel
    if cfg.reset_bend_after_note
    then m.addPitchWheelEvent cfg.channel (start_time + duration) 8192
    else m
  else
    -- `note_rounded = int(round(note_float))` recomputes the same value
    let note_quantized := quantize_to_scale base_note cfg.root cfg.scale
    let chord_notes := build_diatonic_chord_notes note_quantized cfg.root
      cfg.scale cfg.chord_mode
    chord_notes.foldl (fun m nn =>
      m.addNote cfg.channel
        (max 0 (min 127 (fit_to_range nn cfg.min_note cfg.max_note)))
        start_time duration vel) m

/-- The scheduler loop over the mapped pitch values, carrying the loop
index and the running `current_time` (advanced by exactly the resolved
duration of each step). -/
def scheduleLoop (cfg : GenConfig) (randU : Nat → ℚ) (randI : Nat → ℤ) :
    Nat → ℚ → List ℚ → MIDIFile → MIDIFile
  | _, _, [], m => m
  | i, t, note :: rest, m =>
    scheduleLoop cfg randU randI (i + 1) (t + stepDuration cfg i) rest
      (scheduleStep cfg randU randI i t note m)

/-- `function_to_midi(function_values, ...)`: set up track name, tempo,
program change and (on the microtonal path) the RPN pitch-bend-range
controller sequence, map the samples into the note range, then run the
scheduler loop from time 0. -/
def function_to_midi (cfg : GenConfig) (randU : Nat → ℚ) (randI : Nat → ℤ)
    (function_values : List ℚ) : MIDIFile :=
  let m := MIDIFile.empty
  let m := m.addTrackName 0 cfg.track_name
  let m := m.addTempo 0 cfg.tempo
  let m := m.addProgramChange 0 cfg.instrument
  let m := if microPath cfg then
      (((((m.addControllerEvent cfg.channel 0 101 0).addControllerEvent
        cfg.channel 0 100 0).addControllerEvent
        cfg.channel 0 6 (max 0 (min 24 cfg.bend_range_semitones))).addControllerEvent
        cfg.channel 0 38 0).addControllerEvent
        cfg.channel 0 101 127).addControllerEvent cfg.channel 0 100 127
    else m
  let midi_notes := scale_values_to_range function_values cfg.min_note cfg.max_note
  scheduleLoop cfg randU randI 0 0 midi_notes m

/-! ### Per-step emitted events, as explicit lists -/

/-- The note events emitted by one scheduler step. -/
def stepNotes (cfg : GenConfig) (randU : Nat → ℚ) (randI : Nat → ℤ)
    (i : Nat) (t : ℚ) (note : ℚ) : List NoteEvent :=
  let duration := stepDuration cfg i
  let start_time := stepStartTime cfg randU i t
  let vel := stepVelocity cfg randI i
  let note_float := note + (cfg.transpose : ℚ)
  let base_note := pyRound note_float
  if microPath cfg then
    [⟨cfg.channel, fit_to_range base_note cfg.min_note cfg.max_note,
      start_time, duration, vel⟩]
  else
    (build_diatonic_chord_notes (quantize_to_scale base_note cfg.root cfg.scale)
        cfg.root cfg.scale cfg.chord_mode).map
      (fun nn => ⟨cfg.channel,
        max 0 (min 127 (fit_to_range nn cfg.min_note cfg.max_note)),
        start_time, duration, vel⟩)

/-- The pitch-bend events emitted by one scheduler step. -/
def stepBends (cfg : GenConfig) (randU : Nat → ℚ) (i : Nat) (t : ℚ)
    (note : ℚ) : List BendEvent :=
  if microPath cfg then
    let start_time := stepStartTime cfg randU i t
    ⟨cfg.channel, start_time,
      bend14 (note + (cfg.transpose : ℚ)) cfg.bend_range_semitones⟩ ::
      (if cfg.reset_bend_after_note
       then [⟨cfg.channel, start_time + stepDuration cfg i, 8192⟩]
       else [])
  else []

theorem foldl_addNote_notes (ch : ℤ) (g : ℤ → ℤ) (st d : ℚ) (v : ℤ)
    (l : List ℤ) (m : MIDIFile) :
    (l.foldl (fun m nn => m.addNote ch (g nn) st d v) m).notes
      = m.notes ++ l.map (fun nn => (⟨ch, g nn, st, d, v⟩ : NoteEvent)) := by
  induction l generalizing m with
  | nil => simp
  | cons x xs ih =>
    rw [List.foldl_cons, ih]
    simp [MIDIFile.addNote]

theorem foldl_addNote_bends (ch : ℤ) (g : ℤ → ℤ) (st d : ℚ) (v : ℤ)
    (l : List ℤ) (m : MIDIFile) :
    (l.foldl (fun m nn => m.addNote ch (g nn) st d v) m).bends = m.bends := by
  induction l generalizing m with
  | nil => rfl
  | cons x xs ih =>
    rw [List.foldl_cons, ih]
    simp [MIDIFile.addNote]

theorem scheduleStep_notes (cfg : GenConfig) (randU : Nat → ℚ) (randI : Nat → ℤ)
    (i : Nat) (t : ℚ) (note : ℚ) (m : MIDIFile) :
    (scheduleStep cfg randU randI i t note m).notes
      = m.notes ++ stepNotes cfg randU randI i t note := by
  unfold scheduleStep stepNotes
  by_cases hmp : microPath cfg
  · rw [if_pos hmp, if_pos hmp]
    by_cases hr : cfg.reset_bend_after_note
    · simp [hr, MIDIFile.addNote, MIDIFile.addPitchWheelEvent]
    · simp [hr, MIDIFile.addNote, MIDIFile.addPitchWheelEvent]
  · rw [if_neg hmp, if_neg hmp]
    rw [foldl_addNote_notes]

theorem scheduleStep_bends (cfg : GenConfig) (randU : Nat → ℚ) (randI : Nat → ℤ)
    (i : Nat) (t : ℚ) (note : ℚ) (m : MIDIFile) :
    (scheduleStep cfg randU randI i t note m).bends
      = m.bends ++ stepBends cfg randU i t note := by
  unfold scheduleStep stepBends
  by_cases hmp : microPath cfg
  · rw [if_pos hmp, if_pos hmp]
    by_cases hr : cfg.reset_bend_after_note
    · simp [hr, MIDIFile.addNote, MIDIFile.addPitchWheelEvent]
    · simp [hr, MIDIFile.addNote, MIDIFile.addPitchWheelEvent]
  · rw [if_neg hmp, if_neg hmp]
    rw [foldl_addNote_bends]
    simp

/-- The note events emitted by the whole scheduler loop. -/
def emittedNotes (cfg : GenConfig) (randU : Nat → ℚ) (randI : Nat → ℤ) :
    Nat → ℚ → List ℚ → List NoteEvent
  | _, _, [] => []
  | i, t, n :: ns =>
    stepNotes cfg randU randI i t n
      ++ emittedNotes cfg randU randI (i + 1) (t + stepDuration cfg i) ns

/-- The pitch-bend events emitted by the whole scheduler loop. -/
def emittedBends (cfg : GenConfig) (randU : Nat → ℚ) :
    Nat → ℚ → List ℚ → List BendEvent
  | _, _, [] => []
  | i, t, n :: ns =>
    stepBends cfg randU i t n
      ++ emittedBends cfg randU (i + 1) (t + stepDuration cfg i) ns

theorem scheduleLoop_notes (cfg : GenConfig) (randU : Nat → ℚ) (randI : Nat → ℤ)
    (ns : List ℚ) (i : Nat) (t : ℚ) (m : MIDIFile) :
    (scheduleLoop cfg randU randI i t ns m).notes
      = m.notes ++ emittedNotes cfg randU randI i t ns := by
  induction ns generalizing i t m with
  | nil => simp [scheduleLoop, emittedNotes]
  | cons n ns ih =>
    rw [scheduleLoop, ih, scheduleStep_notes]
    simp [emittedNotes]

theorem scheduleLoop_bends (cfg : GenConfig) (randU : Nat → ℚ) (randI : Nat → ℤ)
    (ns : List ℚ) (i : Nat) (t : ℚ) (m : MIDIFile) :
    (scheduleLoop cfg randU randI i t ns m).bends
      = m.bends ++ emittedBends cfg randU i t ns := by
  induction ns generalizing i t m with
  | nil => simp [scheduleLoop, emittedBends]
  | cons n ns ih =>
    rw [scheduleLoop, ih, scheduleStep_bends]
    simp [emittedBends]

theorem function_to_midi_notes (cfg : GenConfig) (randU : Nat → ℚ)
    (randI : Nat → ℤ) (ys : List ℚ) :
    (function_to_midi cfg randU randI ys).notes
      = emittedNotes cfg randU randI 0 0
          (scale_values_to_range ys cfg.min_note cfg.max_note) := by
  unfold function_to_midi
  rw [scheduleLoop_notes]
  by_cases hmp : microPath cfg
  · simp [hmp, MIDIFile.empty, MIDIFile.addTrackName, MIDIFile.addTempo,
      MIDIFile.addProgramChange, MIDIFile.addControllerEvent]
  · simp [hmp, MIDIFile.empty, MIDIFile.addTrackName, MIDIFile.addTempo,
      MIDIFile.addProgramChange]

theorem function_to_midi_bends (cfg : GenConfig) (randU : Nat → ℚ)
    (randI : Nat → ℤ) (ys : List ℚ) :
    (function_to_midi cfg randU randI ys).bends
      = emittedBends cfg randU 0 0
          (scale_values_to_range ys cfg.min_note cfg.max_note) := by
  unfold function_to_midi
  rw [scheduleLoop_bends]
  by_cases hmp : microPath cfg
  · simp [hmp, MIDIFile.empty, MIDIFile.addTrackName, MIDIFile.addTempo,
      MIDIFile.addProgramChange, MIDIFile.addControllerEvent]
  · simp [hmp, MIDIFile.empty, MIDIFile.addTrackName, MIDIFile.addTempo,
      MIDIFile.addProgramChange]

theorem scale_values_to_range_length (ys : List ℚ) (mn mx : ℤ) :
    (scale_values_to_range ys mn mx).length = ys.length := by
  unfold scale_values_to_range
  cases ys with
  | nil => rfl
  | cons v vs =>
    dsimp only
    split
    · simp
    · simp

/-- The configuration of the C7 scheduler example: rhythm pattern
`[0.5, 0.5, 1.0]`, chord mode `none`, not microtonal; base duration,
swing and humanize-timing are parameters. -/
def cfg7 (d s h : ℚ) : GenConfig :=
  ⟨120, 100, d, 0, 0, false, 2, true, "chromatic", 60, 36, 96,
   some [1 / 2, 1 / 2, 1], s, h, 0, "none", "Math Function Melody", 0⟩

/-- C7: with rhythm pattern `[0.5, 0.5, 1.0]` and 5 samples, the scheduler
advances `current_time` by exactly the cycled pattern durations: with no
swing or jitter the note start times are exactly `0, 0.5, 1, 2, 2.5`; with
swing `s ∈ (0, 1]` and timing jitter active, each onset only gains its own
swing/jitter offset while the underlying cadence `0, 0.5, 1, 2, 2.5` is
unchanged. -/
theorem scheduler_times_rhythm_pattern (d : ℚ) (ys : List ℚ)
    (h5 : ys.length = 5) (u : Nat → ℚ) (w : Nat → ℤ) (s h : ℚ)
    (hs0 : 0 < s) (hs1 : s ≤ 1) (hh : 0 < h) :
    ((function_to_midi (cfg7 d 0 0) u w ys).notes.map (fun e => e.time)
        = [0, 1 / 2, 1, 2, 5 / 2])
    ∧ ((function_to_midi (cfg7 d s h) u w ys).notes.map (fun e => e.time)
        = [u 0, 1 / 2 + s / 2 + u 1, 1 + u 2, 2 + s / 2 + u 3, 5 / 2 + u 4]) := by
  have hlen : (scale_values_to_range ys 36 96).length = 5 := by
    rw [scale_values_to_range_length]; exact h5
  rcases hms : scale_values_to_range ys 36 96 with _ | ⟨a, _ | ⟨b, _ | ⟨c, _ | ⟨e, _ | ⟨f, tl⟩⟩⟩⟩⟩ <;>
    rw [hms] at hlen <;> simp at hlen
  subst hlen
  have hmin1 : min 1 s = s := min_eq_right hs1
  have hmax0 : max 0 s = s := max_eq_right hs0.le
  constructor
  · rw [function_to_midi_notes]
    show ((emittedNotes (cfg7 d 0 0) u w 0 0
      (scale_values_to_range ys 36 96)).map (fun e => e.time)) = _
    rw [hms]
    norm_num [emittedNotes, stepNotes, stepDuration, stepStartTime,
      activePattern, cfg7, microPath, build_diatonic_chord_notes]
  · rw [function_to_midi_notes]
    show ((emittedNotes (cfg7 d s h) u w 0 0
      (scale_values_to_range ys 36 96)).map (fun e => e.time)) = _
    rw [hms]
    norm_num [emittedNotes, stepNotes, stepDuration, stepStartTime,
      activePattern, cfg7, microPath, build_diatonic_chord_notes, hs0, hh,
      hmin1, hmax0]
    ring_nf

/-- Witness for C7 with base duration 0.5, five zero samples, zero draws,
swing 1/2 and humanize-timing 1/10. -/
theorem scheduler_times_rhythm_pattern_witness :
    ([0, 0, 0, 0, 0] : List ℚ).length = 5 ∧ (0 : ℚ) < 1 / 2 ∧ (1 / 2 : ℚ) ≤ 1
    ∧ (0 : ℚ) < 1 / 10
    ∧ ((function_to_midi (cfg7 (1 / 2) 0 0) (fun _ => 0) (fun _ => 0)
          [0, 0, 0, 0, 0]).notes.map (fun e => e.time) = [0, 1 / 2, 1, 2, 5 / 2]) :=
  ⟨by norm_num, by norm_num, by norm_num, by norm_num,
   (scheduler_times_rhythm_pattern (1 / 2) [0, 0, 0, 0, 0] (by norm_num)
     (fun _ => 0) (fun _ => 0) (1 / 2) (1 / 10)
     (by norm_num) (by norm_num) (by norm_num)).1⟩

/-! ### Pitch bounds for every emitted note event -/

theorem fit_to_range_bounds (n mn mx : ℤ) (h : mn ≤ mx) :
    mn ≤ fit_to_range n mn mx ∧ fit_to_range n mn mx ≤ mx := by
  rw [fit_to_range_eq n mn mx h]
  exact ⟨le_max_left _ _, max_le h (min_le_left _ _)⟩

theorem stepNotes_pitch_bounds (cfg : GenConfig) (u : Nat → ℚ) (w : Nat → ℤ)
    (i : Nat) (t : ℚ) (note : ℚ)
    (h0 : 0 ≤ cfg.min_note) (h1 : cfg.min_note ≤ cfg.max_note)
    (h2 : cfg.max_note ≤ 127) :
    ∀ e ∈ stepNotes cfg u w i t note,
      cfg.min_note ≤ e.pitch ∧ e.pitch ≤ cfg.max_note := by
  intro e he
  unfold stepNotes at he
  by_cases hmp : microPath cfg
  · rw [if_pos hmp] at he
    have := List.mem_singleton.mp he
    subst this
    exact fit_to_range_bounds _ _ _ h1
  · rw [if_neg hmp] at he
    obtain ⟨nn, _, rfl⟩ := List.mem_map.mp he
    obtain ⟨hl, hr⟩ := fit_to_range_bounds nn cfg.min_note cfg.max_note h1
    constructor
    · show cfg.min_note ≤ max 0 (min 127 (fit_to_range nn cfg.min_note cfg.max_note))
      omega
    · show max 0 (min 127 (fit_to_range nn cfg.min_note cfg.max_note)) ≤ cfg.max_note
      omega

theorem emittedNotes_pitch_bounds (cfg : GenConfig) (u : Nat → ℚ) (w : Nat → ℤ)
    (ns : List ℚ) (i : Nat) (t : ℚ)
    (h0 : 0 ≤ cfg.min_note) (h1 : cfg.min_note ≤ cfg.max_note)
    (h2 : cfg.max_note ≤ 127) :
    ∀ e ∈ emittedNotes cfg u w i t ns,
      cfg.min_note ≤ e.pitch ∧ e.pitch ≤ cfg.max_note := by
  induction ns generalizing i t with
  | nil => intro e he; cases he
  | cons n ns ih =>
    intro e he
    rw [emittedNotes] at he
    rcases List.mem_append.mp he with h | h
    · exact stepNotes_pitch_bounds cfg u w i t n h0 h1 h2 e h
    · exact ih _ _ e h

/-- The configuration of the spec's chromatic end-to-end example: scale
"chromatic", root 60, range `[36, 96]`, chord mode `none`, not microtonal,
base duration 0.5, no rhythm/swing/humanize. -/
def chromCfg : GenConfig :=
  ⟨120, 100, 1 / 2, 0, 0, false, 2, true, "chromatic", 60, 36, 96,
   none, 0, 0, 0, "none", "Math Function Melody", 0⟩

/-- C9: for `0 ≤ min_note < max_note ≤ 127`, every note event emitted by
`function_to_midi` (microtonal or quantized/chord path alike) has its pitch
in `[min_note, max_note]`, hence a valid MIDI pitch in `[0, 127]`; and the
chromatic end-to-end configuration with 8 samples emits exactly 8 note
events with non-decreasing start times and all pitches in `[36, 96]`. -/
theorem note_pitches_in_range_and_chromatic_case (cfg : GenConfig)
    (u : Nat → ℚ) (w : Nat → ℤ) (ys zs : List ℚ)
    (h0 : 0 ≤ cfg.min_note) (h1 : cfg.min_note < cfg.max_note)
    (h2 : cfg.max_note ≤ 127) (h8 : zs.length = 8) :
    (∀ e ∈ (function_to_midi cfg u w ys).notes,
        cfg.min_note ≤ e.pitch ∧ e.pitch ≤ cfg.max_note
        ∧ 0 ≤ e.pitch ∧ e.pitch ≤ 127)
    ∧ (function_to_midi chromCfg u w zs).notes.length = 8
    ∧ ((function_to_midi chromCfg u w zs).notes.map (fun e => e.time)).Chain' (· ≤ ·)
    ∧ ∀ e ∈ (function_to_midi chromCfg u w zs).notes,
        36 ≤ e.pitch ∧ e.pitch ≤ 96 := by
  have hgen : ∀ e ∈ (function_to_midi cfg u w ys).notes,
      cfg.min_note ≤ e.pitch ∧ e.pitch ≤ cfg.max_note
      ∧ 0 ≤ e.pitch ∧ e.pitch ≤ 127 := by
    intro e he
    rw [function_to_midi_notes] at he
    obtain ⟨ha, hb⟩ := emittedNotes_pitch_bounds cfg u w _ 0 0 h0 h1.le h2 e he
    exact ⟨ha, hb, by omega, by omega⟩
  have hlen : (scale_values_to_range zs 36 96).length = 8 := by
    rw [scale_values_to_range_length]; exact h8
  rcases hms : scale_values_to_range zs 36 96 with
    _ | ⟨z1, _ | ⟨z2, _ | ⟨z3, _ | ⟨z4, _ | ⟨z5, _ | ⟨z6, _ | ⟨z7, _ | ⟨z8, tl⟩⟩⟩⟩⟩⟩⟩⟩ <;>
    rw [hms] at hlen <;> simp at hlen
  subst hlen
  have htimes : ((emittedNotes chromCfg u w 0 0
      [z1, z2, z3, z4, z5, z6, z7, z8]).map (fun e => e.time))
      = [0, 1 / 2, 1, 3 / 2, 2, 5 / 2, 3, 7 / 2] := by
    norm_num [emittedNotes, stepNotes, stepDuration, stepStartTime,
      activePattern, chromCfg, microPath, build_diatonic_chord_notes]
  refine ⟨hgen, ?_, ?_, ?_⟩
  · rw [function_to_midi_notes]
    show (emittedNotes chromCfg u w 0 0 (scale_values_to_range zs 36 96)).length = 8
    rw [hms]
    have := congrArg List.length htimes
    simpa using this
  · rw [function_to_midi_notes]
    show ((emittedNotes chromCfg u w 0 0
      (scale_values_to_range zs 36 96)).map (fun e => e.time)).Chain' (· ≤ ·)
    rw [hms, htimes]
    norm_num
  · intro e he
    rw [function_to_midi_notes] at he
    have he2 : e ∈ emittedNotes chromCfg u w 0 0 (scale_values_to_range zs 36 96) := he
    exact emittedNotes_pitch_bounds chromCfg u w _ 0 0
      (by norm_num [chromCfg]) (by norm_num [chromCfg]) (by norm_num [chromCfg]) e he2

/-- Witness for C9 at the chromatic example configuration with 8 zero
samples. -/
theorem note_pitches_in_range_and_chromatic_case_witness :
    ((0 : ℤ) ≤ chromCfg.min_note ∧ chromCfg.min_note < chromCfg.max_note
      ∧ chromCfg.max_note ≤ 127 ∧ ([0, 0, 0, 0, 0, 0, 0, 0] : List ℚ).length = 8)
    ∧ (function_to_midi chromCfg (fun _ => 0) (fun _ => 0)
        [0, 0, 0, 0, 0, 0, 0, 0]).notes.length = 8 :=
  ⟨⟨by norm_num [chromCfg], by norm_num [chromCfg], by norm_num [chromCfg], by norm_num⟩,
   (note_pitches_in_range_and_chromatic_case chromCfg (fun _ => 0) (fun _ => 0)
     [] [0, 0, 0, 0, 0, 0, 0, 0] (by norm_num [chromCfg]) (by norm_num [chromCfg])
     (by norm_num [chromCfg]) (by norm_num)).2.1⟩

/-! ### Pitch-bend values -/

theorem bend14_bounds (nf : ℚ) (brs : ℤ) :
    0 ≤ bend14 nf brs ∧ bend14 nf brs ≤ 16383 := by
  unfold bend14
  dsimp only
  constructor
  · omega
  · omega

/-- Zero deviation (the value is its own rounding) yields the center bend
value 8192 exactly. -/
theorem bend14_zero_deviation (nf : ℚ) (brs : ℤ)
    (h : nf - ((pyRound nf : ℤ) : ℚ) = 0) : bend14 nf brs = 8192 := by
  unfold bend14
  dsimp only
  rw [h]
  norm_num [pyRound]

theorem stepBends_values (cfg : GenConfig) (u : Nat → ℚ) (i : Nat) (t : ℚ)
    (note : ℚ) :
    ∀ b ∈ stepBends cfg u i t note,
      b.value = bend14 (note + (cfg.transpose : ℚ)) cfg.bend_range_semitones
      ∨ b.value = 8192 := by
  intro b hb
  unfold stepBends at hb
  by_cases hmp : microPath cfg
  · rw [if_pos hmp] at hb
    rcases List.mem_cons.mp hb with rfl | hb2
    · left; rfl
    · by_cases hr : cfg.reset_bend_after_note
      · rw [if_pos hr] at hb2
        have := List.mem_singleton.mp hb2
        subst this
        right; rfl
      · rw [if_neg hr] at hb2
        cases hb2
  · rw [if_neg hmp] at hb
    cases hb

theorem emittedBends_values (cfg : GenConfig) (u : Nat → ℚ) (ns : List ℚ)
    (i : Nat) (t : ℚ) :
    ∀ b ∈ emittedBends cfg u i t ns,
      (∃ nf : ℚ, b.value = bend14 nf cfg.bend_range_semitones)
      ∨ b.value = 8192 := by
  induction ns generalizing i t with
  | nil => intro b hb; cases hb
  | cons n ns ih =>
    intro b hb
    rw [emittedBends] at hb
    rcases List.mem_append.mp hb with h | h
    · rcases stepBends_values cfg u i t n b h with h2 | h2
      · exact Or.inl ⟨n + (cfg.transpose : ℚ), h2⟩
      · exact Or.inr h2
    · exact ih _ _ b h

theorem emittedBends_nil_of_not_micro (cfg : GenConfig) (u : Nat → ℚ)
    (h : ¬ microPath cfg) (ns : List ℚ) (i : Nat) (t : ℚ) :
    emittedBends cfg u i t ns = [] := by
  induction ns generalizing i t with
  | nil => rfl
  | cons n ns ih =>
    rw [emittedBends]
    unfold stepBends
    rw [if_neg h]
    simpa using ih _ _

/-! ## C8 (amended) -/

/-- C8 (amended): on the microtonal path (`microtonal` true and chord mode
`"none"`), each step emits an onset pitch-bend whose value is exactly
`bend14 noteFloat bendRange` = `round(8192 + clamp(deviation/bendRange,
-1, 1)·8192)` clamped to `[0, 16383]`, followed — when
`reset_bend_after_note` is set — by one additional center bend of value
8192 (which can differ from the onset value); zero deviation yields exactly
8192; every emitted bend value lies in `[0, 16383]`; and no bend event is
ever emitted when `microtonal` is false or the chord mode is
`power`/`triad`/`seventh`. -/
theorem microtonal_bend_values (cfg : GenConfig) (u : Nat → ℚ) (w : Nat → ℤ)
    (ys : List ℚ) (hmic : cfg.microtonal = true) (hcm : cfg.chord_mode = "none") :
    ((function_to_midi cfg u w ys).bends
        = emittedBends cfg u 0 0
            (scale_values_to_range ys cfg.min_note cfg.max_note))
    ∧ (∀ i t note, stepBends cfg u i t note
        = ⟨cfg.channel, stepStartTime cfg u i t,
            bend14 (note + (cfg.transpose : ℚ)) cfg.bend_range_semitones⟩ ::
          (if cfg.reset_bend_after_note
           then [⟨cfg.channel, stepStartTime cfg u i t + stepDuration cfg i, 8192⟩]
           else []))
    ∧ (∀ nf : ℚ, nf - ((pyRound nf : ℤ) : ℚ) = 0 →
        bend14 nf cfg.bend_range_semitones = 8192)
    ∧ (∀ b ∈ (function_to_midi cfg u w ys).bends, 0 ≤ b.value ∧ b.value ≤ 16383)
    ∧ (∀ cfg2 : GenConfig,
        cfg2.microtonal = false
          ∨ cfg2.chord_mode ∈ (["power", "triad", "seventh"] : List String) →
        (function_to_midi cfg2 u w ys).bends = []) := by
  have hmp : microPath cfg := ⟨hmic, Or.inr hcm⟩
  refine ⟨function_to_midi_bends cfg u w ys, ?_, ?_, ?_, ?_⟩
  · intro i t note
    unfold stepBends
    rw [if_pos hmp]
  · intro nf h
    exact bend14_zero_deviation nf cfg.bend_range_semitones h
  · intro b hb
    rw [function_to_midi_bends] at hb
    rcases emittedBends_values cfg u _ 0 0 b hb with ⟨nf, hv⟩ | hv
    · rw [hv]; exact bend14_bounds nf cfg.bend_range_semitones
    · rw [hv]; norm_num
  · intro cfg2 hq
    have hnmp : ¬ microPath cfg2 := by
      rcases hq with hf | hcm2
      · intro hmp2
        rw [hmp2.1] at hf
        cases hf
      · intro hmp2
        rcases hmp2.2 with he | hn
        · rw [he] at hcm2
          simp at hcm2
        · rw [hn] at hcm2
          simp at hcm2
    rw [function_to_midi_bends]
    exact emittedBends_nil_of_not_micro cfg2 u hnmp _ 0 0

/-- The configuration of the C8 counterexample: microtonal, chord mode
`none`, bend reset on, range `[36, 97]` (so a single sample maps to the
fractional midpoint 66.5). -/
def cfg8 : GenConfig :=
  ⟨120, 100, 1 / 2, 0, 0, true, 2, true, "chromatic", 60, 36, 97,
   none, 0, 0, 0, "none", "Math Function Melody", 0⟩

/-- Witness for C8 (amended) at `cfg8` with a single sample. -/
theorem microtonal_bend_values_witness :
    cfg8.microtonal = true ∧ cfg8.chord_mode = "none"
    ∧ ∀ b ∈ (function_to_midi cfg8 (fun _ => 0) (fun _ => 0) [1]).bends,
        0 ≤ b.value ∧ b.value ≤ 16383 :=
  ⟨rfl, rfl,
   (microtonal_bend_values cfg8 (fun _ => 0) (fun _ => 0) [1] rfl rfl).2.2.2.1⟩

/-- C8 counterexample: at `cfg8` with one sample, the mapped pitch is the
midpoint 66.5, whose onset bend value is 10240; the reset event emitted at
note-off carries the center value 8192 ≠ 10240, so not every emitted
pitch-bend value equals the claimed formula for its note's deviation. -/
theorem microtonal_bend_reset_counterexample :
    ((function_to_midi cfg8 (fun _ => 0) (fun _ => 0) [1]).bends.map
        (fun b => b.value) = [10240, 8192])
    ∧ bend14 (133 / 2) 2 = 10240
    ∧ ¬ (∀ b ∈ (function_to_midi cfg8 (fun _ => 0) (fun _ => 0) [1]).bends,
          b.value = bend14 (133 / 2) 2) := by
  have hsv : scale_values_to_range [1] 36 97 = [133 / 2] := by
    norm_num [scale_values_to_range]
  have hround : pyRound (133 / 2) = 66 := by
    norm_num [pyRound]
  have hb14 : bend14 (133 / 2) 2 = 10240 := by
    norm_num [bend14, microBendRange, hround, pyRound, min_def, max_def]
  have hbends : (function_to_midi cfg8 (fun _ => 0) (fun _ => 0) [1]).bends
      = [⟨0, 0, 10240⟩, ⟨0, 0 + 1 / 2, 8192⟩] := by
    rw [function_to_midi_bends]
    show emittedBends cfg8 (fun _ => 0) 0 0 (scale_values_to_range [1] 36 97) = _
    rw [hsv]
    rw [emittedBends]
    rw [emittedBends]
    unfold stepBends
    rw [if_pos (show microPath cfg8 from ⟨rfl, Or.inr rfl⟩)]
    norm_num [stepStartTime, stepDuration, activePattern, cfg8, hb14]
  refine ⟨by rw [hbends]; rfl, hb14, ?_⟩
  intro hall
  have := hall ⟨0, 0 + 1 / 2, 8192⟩ (by rw [hbends]; simp)
  rw [hb14] at this
  norm_num at this

/-! ## `main.py`: the safe expression evaluator

`SafeMathEvaluator.eval_expression` strips/checks the input, replaces `^`
by `**`, parses with Python's `ast.parse(mode='eval')`, walks the tree with
`_eval_node`, and catches `SyntaxError`, `ValueError`, `TypeError` and
`ZeroDivisionError` — returning `None` (after printing) for any of them.
Any other exception (e.g. the `KeyError` from looking up a disallowed
operator in `allowed_operators`) escapes uncaught.

The parser below models Python's `ast.parse(mode='eval')` on the numeric
expression fragment the evaluator accepts (numbers, names, calls, `+ - * /
** // %`, unary sign, parentheses); Python keywords (including the literals
`True`/`False`/`None`, unused by this engine) are rejected as a
`SyntaxError`, as the real grammar rejects statements like `import os` in
eval mode. -/

/-- Python exceptions relevant to the evaluator. -/
inductive PyExc where
  | syntaxError (msg : String)
  | valueError (msg : String)
  | typeError (msg : String)
  | zeroDivisionError
  | keyError (msg : String)
deriving DecidableEq

/-- Tokens of the expression fragment. -/
inductive Tok where
  | num (v : ℚ)
  | ident (s : String)
  | kw (s : String)
  | plus
  | minus
  | star
  | slash
  | dstar
  | dslash
  | percent
  | lparen
  | rparen
  | comma
deriving DecidableEq

/-- Python's keyword list (with the constant literals, see above). -/
def pyKeywords : List String :=
  ["False", "None", "True", "and", "as", "assert", "async", "await", "break",
   "class", "continue", "def", "del", "elif", "else", "except", "finally",
   "for", "from", "global", "if", "import", "in", "is", "lambda", "nonlocal",
   "not", "or", "pass", "raise", "return", "try", "while", "with", "yield"]

def digitsToNat (l : List Char) : Nat :=
  l.foldl (fun a c => a * 10 + (c.toNat - 48)) 0

def isIdentStart (c : Char) : Bool := c.isAlpha || c = '_'

def isIdentChar (c : Char) : Bool := c.isAlphanum || c = '_'

/-- The tokenizer; the fuel argument only bounds recursion (every step
consumes at least one character). -/
def tokenizeAux : Nat → List Char → Except PyExc (List Tok)
  | 0, _ => .error (.syntaxError "tokenizer fuel exhausted")
  | _ + 1, [] => .ok []
  | fuel + 1, c :: cs =>
    if c.isWhitespace then tokenizeAux fuel cs
    else if c.isDigit then
      let intPart := c :: cs.takeWhile Char.isDigit
      let rest1 := cs.dropWhile Char.isDigit
      match rest1 with
      | '.' :: rest2 =>
        let fracPart := rest2.takeWhile Char.isDigit
        let rest3 := rest2.dropWhile Char.isDigit
        let v : ℚ := (digitsToNat intPart : ℚ)
          + (digitsToNat fracPart : ℚ) / ((10 : ℚ) ^ fracPart.length)
        match tokenizeAux fuel rest3 with
        | .error e => .error e
        | .ok ts => .ok (.num v :: ts)
      | _ =>
        match tokenizeAux fuel rest1 with
        | .error e => .error e
        | .ok ts => .ok (.num (digitsToNat intPart : ℚ) :: ts)
    else if isIdentStart c then
      let name := (c :: cs.takeWhile isIdentChar).asString
      let rest := cs.dropWhile isIdentChar
      match tokenizeAux fuel rest with
      | .error e => .error e
      | .ok ts =>
        .ok ((if name ∈ pyKeywords then Tok.kw name else Tok.ident name) :: ts)
    else if c = '*' then
      match cs with
      | '*' :: rest =>
        match tokenizeAux fuel rest with
        | .error e => .error e
        | .ok ts => .ok (.dstar :: ts)
      | _ =>
        match tokenizeAux fuel cs with
        | .error e => .error e
        | .ok ts => .ok (.star :: ts)
    else if c = '/' then
      match cs with
      | '/' :: rest =>
        match tokenizeAux fuel rest with
        | .error e => .error e
        | .ok ts => .ok (.dslash :: ts)
      | _ =>
        match tokenizeAux fuel cs with
        | .error e => .error e
        | .ok ts => .ok (.slash :: ts)
    else if c = '+' then
      match tokenizeAux fuel cs with
      | .error e => .error e
      | .ok ts => .ok (.plus :: ts)
    else if c = '-' then
      match tokenizeAux fuel cs with
      | .error e => .error e
      | .ok ts => .ok (.minus :: ts)
    else if c = '%' then
      match tokenizeAux fuel cs with
      | .error e => .error e
      | .ok ts => .ok (.percent :: ts)
    else if c = '(' then
      match tokenizeAux fuel cs with
      | .error e => .error e
      | .ok ts => .ok (.lparen :: ts)
    else if c = ')' then
      match tokenizeAux fuel cs with
      | .error e => .error e
      | .ok ts => .ok (.rparen :: ts)
    else if c = ',' then
      match tokenizeAux fuel cs with
      | .error e => .error e
      | .ok ts => .ok (.comma :: ts)
    else .error (.syntaxError "invalid character")

def tokenize (cs : List Char) : Except PyExc (List Tok) :=
  tokenizeAux (cs.length + 1) cs

/-- Python `ast.BinOp` operator tags reachable from the token set. -/
inductive BinK where
  | add
  | sub
  | mult
  | div
  | pow
  | floorDiv
  | mod
deriving DecidableEq

/-- Python `ast.UnaryOp` operator tags. -/
inductive UnK where
  | uSub
  | uAdd
deriving DecidableEq

mutual
/-- The `ast` expression nodes handled by `_eval_node` (`Constant`, `Name`,
`Call`, `BinOp`, `UnaryOp`). -/
inductive PyAst where
  | constant (v : ℚ)
  | name (id : String)
  | call (func : PyAst) (args : PyAstList)
  | binOp (op : BinK) (l r : PyAst)
  | unaryOp (op : UnK) (e : PyAst)
deriving DecidableEq
inductive PyAstList where
  | nil
  | cons (a : PyAst) (as : PyAstList)
deriving DecidableEq
end

mutual
/-- Recursive-descent parser, Python expression precedence: sums. -/
def parseExpr : Nat → List Tok → Except PyExc (PyAst × List Tok)
  | 0, _ => .error (.syntaxError "parser fuel exhausted")
  | fuel + 1, ts =>
    match parseTerm fuel ts with
    | .error e => .error e
    | .ok (l, ts1) => parseExprTail fuel l ts1

def parseExprTail : Nat → PyAst → List Tok → Except PyExc (PyAst × List Tok)
  | 0, _, _ => .error (.syntaxError "parser fuel exhausted")
  | fuel + 1, acc, ts =>
    match ts with
    | .plus :: ts1 =>
      match parseTerm fuel ts1 with
      | .error e => .error e
      | .ok (r, ts2) => parseExprTail fuel (.binOp .add acc r) ts2
    | .minus :: ts1 =>
      match parseTerm fuel ts1 with
      | .error e => .error e
      | .ok (r, ts2) => parseExprTail fuel (.binOp .sub acc r) ts2
    | _ => .ok (acc, ts)

/-- Products (`* / // %`). -/
def parseTerm : Nat → List Tok → Except PyExc (PyAst × List Tok)
  | 0, _ => .error (.syntaxError "parser fuel exhausted")
  | fuel + 1, ts =>
    match parseFactor fuel ts with
    | .error e => .error e
    | .ok (l, ts1) => parseTermTail fuel l ts1

def parseTermTail : Nat → PyAst → List Tok → Except PyExc (PyAst × List Tok)
  | 0, _, _ => .error (.syntaxError "parser fuel exhausted")
  | fuel + 1, acc, ts =>
    match ts with
    | .star :: ts1 =>
      match parseFactor fuel ts1 with
      | .error e => .error e
      | .ok (r, ts2) => parseTermTail fuel (.binOp .mult acc r) ts2
    | .slash :: ts1 =>
      match parseFactor fuel ts1 with
      | .error e => .error e
      | .ok (r, ts2) => parseTermTail fuel (.binOp .div acc r) ts2
    | .dslash :: ts1 =>
      match parseFactor fuel ts1 with
      | .error e => .error e
      | .ok (r, ts2) => parseTermTail fuel (.binOp .floorDiv acc r) ts2
    | .percent :: ts1 =>
      match parseFactor fuel ts1 with
      | .error e => .error e
      | .ok (r, ts2) => parseTermTail fuel (.binOp .mod acc r) ts2
    | _ => .ok (acc, ts)

/-- Unary sign (binding looser than `**` on the left, as in Python). -/
def parseFactor : Nat → List Tok → Except PyExc (PyAst × List Tok)
  | 0, _ => .error (.syntaxError "parser fuel exhausted")
  | fuel + 1, ts =>
    match ts with
    | .minus :: ts1 =>
      match parseFactor fuel ts1 with
      | .error e => .error e
      | .ok (e, ts2) => .ok (.unaryOp .uSub e, ts2)
    | .plus :: ts1 =>
      match parseFactor fuel ts1 with
      | .error e => .error e
      | .ok (e, ts2) => .ok (.unaryOp .uAdd e, ts2)
    | _ => parsePower fuel ts

/-- `**` (right-associative, exponent may carry a sign). -/
def parsePower : Nat → List Tok → Except PyExc (PyAst × List Tok)
  | 0, _ => .error (.syntaxError "parser fuel exhausted")
  | fuel + 1, ts =>
    match parseAtomTrail fuel ts with
    | .error e => .error e
    | .ok (a, ts1) =>
      match ts1 with
      | .dstar :: ts2 =>
        match parseFactor fuel ts2 with
        | .error e => .error e
        | .ok (e, ts3) => .ok (.binOp .pow a e, ts3)
      | _ => .ok (a, ts1)

def parseAtomTrail : Nat → List Tok → Except PyExc (PyAst × List Tok)
  | 0, _ => .error (.syntaxError "parser fuel exhausted")
  | fuel + 1, ts =>
    match parseAtom fuel ts with
    | .error e => .error e
    | .ok (a, ts1) => parseTrail fuel a ts1

/-- Call trailers `f(...)` (possibly chained). -/
def parseTrail : Nat → PyAst → List Tok → Except PyExc (PyAst × List Tok)
  | 0, _, _ => .error (.syntaxError "parser fuel exhausted")
  | fuel + 1, a, ts =>
    match ts with
    | .lparen :: ts1 =>
      match ts1 with
      | .rparen :: ts2 => parseTrail fuel (.call a .nil) ts2
      | _ =>
        match parseArgs fuel ts1 with
        | .error e => .error e
        | .ok (args, ts2) =>
          match ts2 with
          | .rparen :: ts3 => parseTrail fuel (.call a args) ts3
          | _ => .error (.syntaxError "expected closing parenthesis")
    | _ => .ok (a, ts)

def parseArgs : Nat → List Tok → Except PyExc (PyAstList × List Tok)
  | 0, _ => .error (.syntaxError "parser fuel exhausted")
  | fuel + 1, ts =>
    match parseExpr fuel ts with
    | .error e => .error e
    | .ok (a, ts1) =>
      match ts1 with
      | .comma :: ts2 =>
        match parseArgs fuel ts2 with
        | .error e => .error e
        | .ok (rest, ts3) => .ok (.cons a rest, ts3)
      | _ => .ok (.cons a .nil, ts1)

def parseAtom : Nat → List Tok → Except PyExc (PyAst × List Tok)
  | 0, _ => .error (.syntaxError "parser fuel exhausted")
  | _ + 1, .num v :: ts1 => .ok (.constant v, ts1)
  | _ + 1, .ident s :: ts1 => .ok (.name s, ts1)
  | fuel + 1, .lparen :: ts1 =>
    match parseExpr fuel ts1 with
    | .error e => .error e
    | .ok (e, ts2) =>
      match ts2 with
      | .rparen :: ts3 => .ok (e, ts3)
      | _ => .error (.syntaxError "expected closing parenthesis")
  | _ + 1, _ => .error (.syntaxError "invalid syntax")
end

/-- `expression_str.replace('^', '**')` (single-character pattern). -/
def caretReplace : List Char → List Char
  | [] => []
  | c :: cs => (if c = '^' then ['*', '*'] else [c]) ++ caretReplace cs

/-- `ast.parse(expr, mode='eval')` on the fragment: tokenize, parse one
expression, reject leftover input. -/
def parseExprString (s : String) : Except PyExc PyAst :=
  match tokenize (caretReplace s.toList) with
  | .error e => .error e
  | .ok ts =>
    match parseExpr (8 * ts.length + 16) ts with
    | .error e => .error e
    | .ok (node, rest) =>
      if rest = [] then .ok node else .error (.syntaxError "invalid syntax")

/-- Python runtime values reachable inside `_eval_node`: numbers, or the
function objects stored in `allowed_functions` (all unary). -/
inductive PyVal where
  | num (q : ℚ)
  | func (f : ℚ → Except PyExc ℚ)

/-- The transcendental part of Python's `math` module, as a parameter of
the embedding (these functions are irrational in general; theorems assume
only facts true of the real implementations). `powf` is `a ** b` for a
non-integer exponent. -/
structure MathBackend where
  sin : ℚ → Except PyExc ℚ
  cos : ℚ → Except PyExc ℚ
  tan : ℚ → Except PyExc ℚ
  exp : ℚ → Except PyExc ℚ
  log : ℚ → Except PyExc ℚ
  sqrt : ℚ → Except PyExc ℚ
  powf : ℚ → ℚ → Except PyExc ℚ
  piV : ℚ
  eV : ℚ

/-- `self.allowed_constants` (`pi`, `e`). -/
def allowed_constants (B : MathBackend) (id : String) : Option ℚ :=
  if id = "pi" then some B.piV
  else if id = "e" then some B.eV
  else none

/-- `self.allowed_functions` (`sin cos tan exp log sqrt abs floor ceil`);
`abs`/`floor`/`ceil` are exact. -/
def allowed_functions (B : MathBackend) (id : String) :
    Option (ℚ → Except PyExc ℚ) :=
  if id = "sin" then some B.sin
  else if id = "cos" then some B.cos
  else if id = "tan" then some B.tan
  else if id = "exp" then some B.exp
  else if id = "log" then some B.log
  else if id = "sqrt" then some B.sqrt
  else if id = "abs" then some (fun q => .ok |q|)
  else if id = "floor" then some (fun q => .ok ((⌊q⌋ : ℤ) : ℚ))
  else if id = "ceil" then some (fun q => .ok ((⌈q⌉ : ℤ) : ℚ))
  else none

/-- Apply a numeric binary operation; a function operand is a
`TypeError` as in Python. -/
def numBin (f : ℚ → ℚ → Except PyExc ℚ) : PyVal → PyVal → Except PyExc PyVal
  | .num a, .num b =>
    match f a b with
    | .error e => .error e
    | .ok r => .ok (.num r)
  | _, _ => .error (.typeError "unsupported operand type")

/-- Python `a ** b`: exact for an integer exponent (with
`ZeroDivisionError` on `0 ** negative`), delegated to the backend
otherwise. -/
def pyPow (B : MathBackend) (a b : ℚ) : Except PyExc ℚ :=
  if b.den = 1 then
    if a = 0 ∧ b.num < 0 then .error .zeroDivisionError
    else .ok (a ^ b.num)
  else B.powf a b

/-- `self.allowed_operators[type(node.op)]` for `BinOp`: the dict holds
`Add`, `Sub`, `Mult`, `Div`, `Pow` (and `USub`); any other operator type
raises an uncaught `KeyError`. `Div` raises `ZeroDivisionError` on a zero
denominator, as Python number division does. -/
def lookupBinOp (B : MathBackend) :
    BinK → Except PyExc (PyVal → PyVal → Except PyExc PyVal)
  | .add => .ok (numBin (fun a b => .ok (a + b)))
  | .sub => .ok (numBin (fun a b => .ok (a - b)))
  | .mult => .ok (numBin (fun a b => .ok (a * b)))
  | .div => .ok (numBin (fun a b =>
      if b = 0 then .error .zeroDivisionError else .ok (a / b)))
  | .pow => .ok (numBin (pyPow B))
  | .floorDiv => .error (.keyError "FloorDiv")
  | .mod => .error (.keyError "Mod")

/-- `self.allowed_operators[type(node.op)]` for `UnaryOp`: only `USub` is
in the dict; `UAdd` raises an uncaught `KeyError`. -/
def lookupUnOp : UnK → Except PyExc (PyVal → Except PyExc PyVal)
  | .uSub => .ok (fun v =>
      match v with
      | .num a => .ok (.num (-a))
      | .func _ => .error (.typeError "bad operand type"))
  | .uAdd => .error (.keyError "UAdd")

mutual
/-- `SafeMathEvaluator._eval_node`. Note the evaluation order: for
`BinOp`/`UnaryOp` the operator lookup happens before the operands are
evaluated; for `Call` the callee is evaluated before the arguments. -/
def evalNode (B : MathBackend) (x_value : ℚ) : PyAst → Except PyExc PyVal
  | .constant v => .ok (.num v)
  | .name id =>
    if id = "x" then .ok (.num x_value)
    else
      match allowed_constants B id with
      | some v => .ok (.num v)
      | none =>
        match allowed_functions B id with
        | some f => .ok (.func f)
        | none => .error (.valueError ("Name " ++ id ++ " not allowed"))
  | .call f args =>
    match evalNode B x_value f with
    | .error e => .error e
    | .ok fv =>
      match evalNodeList B x_value args with
      | .error e => .error e
      | .ok avs =>
        match fv with
        | .func g =>
          match avs with
          | [.num q] =>
            match g q with
            | .error e => .error e
            | .ok r => .ok (.num r)
          | [.func _] => .error (.typeError "must be a real number")
          | _ => .error (.typeError "wrong number of arguments")
        | .num _ => .error (.typeError "object is not callable")
  | .binOp op l r =>
    match lookupBinOp B op with
    | .error e => .error e
    | .ok opf =>
      match evalNode B x_value l with
      | .error e => .error e
      | .ok lv =>
        match evalNode B x_value r with
        | .error e => .error e
        | .ok rv => opf lv rv
  | .unaryOp op e =>
    match lookupUnOp op with
    | .error er => .error er
    | .ok opf =>
      match evalNode B x_value e with
      | .error er => .error er
      | .ok v => opf v

/-- Evaluation of a `Call`'s argument list, in order. -/
def evalNodeList (B : MathBackend) (x_value : ℚ) :
    PyAstList → Except PyExc (List PyVal)
  | .nil => .ok []
  | .cons a as =>
    match evalNode B x_value a with
    | .error e => .error e
    | .ok v =>
      match evalNodeList B x_value as with
      | .error e => .error e
      | .ok vs => .ok (v :: vs)
end

/-- The `try` body of `eval_expression`: empty check, caret replacement,
parse, tree walk, and the final `isinstance(result, (int, float))` check. -/
def evalExpressionBody (B : MathBackend) (expression_str : String)
    (x_value : ℚ) : Except PyExc ℚ :=
  if expression_str.toList.all Char.isWhitespace then
    .error (.valueError "Empty expression")
  else
    match parseExprString expression_str with
    | .error e => .error e
    | .ok node =>
      match evalNode B x_value node with
      | .error e => .error e
      | .ok (.num q) => .ok q
      | .ok (.func _) => .error (.valueError "Expression must evaluate to a number")

/-- The observable outcome of `eval_expression`: a returned number, the
`None` returned after catching an exception, or an uncaught exception. -/
inductive EvalOutcome where
  | val (q : ℚ)
  | noneVal
  | crash (e : PyExc)
deriving DecidableEq

/-- The `except (SyntaxError, ValueError, TypeError, ZeroDivisionError)`
clause: these are caught (and `None` returned); anything else escapes. -/
def caughtExc : PyExc → Bool
  | .syntaxError _ => true
  | .valueError _ => true
  | .typeError _ => true
  | .zeroDivisionError => true
  | .keyError _ => false

/-- `SafeMathEvaluator.eval_expression(expression_str, x_value)`. -/
def eval_expression (B : MathBackend) (expression_str : String)
    (x_value : ℚ) : EvalOutcome :=
  match evalExpressionBody B expression_str x_value with
  | .ok q => .val q
  | .error e => if caughtExc e then .noneVal else .crash e

/-- A concrete backend instance for witnesses, agreeing with Python's
`math` module at the points the witnesses evaluate: `sin 0 = 0`, and
`log`/`sqrt` raise `ValueError: math domain error` outside their domains. -/
def mathModel : MathBackend :=
  ⟨fun _ => .ok 0, fun _ => .ok 1, fun _ => .ok 0, fun _ => .ok 1,
   fun q => if q ≤ 0 then .error (.valueError "math domain error") else .ok 0,
   fun q => if q < 0 then .error (.valueError "math domain error") else .ok 0,
   fun _ _ => .ok 0, 0, 0⟩

theorem evalBody_sin_x (B : MathBackend) (hsin : B.sin 0 = .ok 0) :
    evalExpressionBody B "sin(x)" 0 = .ok 0 := by
  have hempty : ("sin(x)".toList.all Char.isWhitespace) = false := rfl
  have hparse : parseExprString "sin(x)"
      = .ok (.call (.name "sin") (.cons (.name "x") .nil)) := rfl
  unfold evalExpressionBody
  rw [hempty, hparse]
  simp only [Bool.false_eq_true, if_false]
  simp only [evalNode, evalNodeList, allowed_constants, allowed_functions,
    String.reduceEq, reduceIte, hsin]

/-! ## C1 (amended) -/

/-- C1 (amended): inside the `try` body the failure causes are distinct
typed exceptions — `ValueError` for the empty string, `ZeroDivisionError`
for `1/x` at `x = 0`, `SyntaxError` for `import os` (Python's eval-mode
grammar rejects it at parse time, it is not a separate "unsupported
construct" error) and for malformed input like `1 +`, and `ValueError` for
a disallowed identifier — but the public `eval_expression` catches all of
them and returns `None`, so every such failure is observationally the same
`None`, not a distinct typed error; `evaluate("sin(x)", 0)` returns `0.0`;
and a disallowed *operator* (`%`) raises an uncaught `KeyError` — a crash,
not a typed rejection. -/
theorem eval_expression_collapses_errors_to_none (B : MathBackend)
    (hsin : B.sin 0 = .ok 0) :
    evalExpressionBody B "" 0 = .error (.valueError "Empty expression")
    ∧ evalExpressionBody B "1/x" 0 = .error .zeroDivisionError
    ∧ evalExpressionBody B "import os" 0 = .error (.syntaxError "invalid syntax")
    ∧ evalExpressionBody B "1 +" 0 = .error (.syntaxError "invalid syntax")
    ∧ evalExpressionBody B "foo(3)" 0 = .error (.valueError "Name foo not allowed")
    ∧ eval_expression B "" 0 = .noneVal
    ∧ eval_expression B "1/x" 0 = .noneVal
    ∧ eval_expression B "import os" 0 = .noneVal
    ∧ eval_expression B "1 +" 0 = .noneVal
    ∧ eval_expression B "foo(3)" 0 = .noneVal
    ∧ eval_expression B "sin(x)" 0 = .val 0
    ∧ eval_expression B "1 % 2" 0 = .crash (.keyError "Mod") := by
  refine ⟨rfl, rfl, rfl, rfl, rfl, rfl, rfl, rfl, rfl, rfl, ?_, rfl⟩
  unfold eval_expression
  rw [evalBody_sin_x B hsin]

/-- Witness for C1 (amended) at the concrete backend. -/
theorem eval_expression_collapses_errors_to_none_witness :
    mathModel.sin 0 = .ok 0 ∧ eval_expression mathModel "sin(x)" 0 = .val 0 :=
  ⟨rfl, (eval_expression_collapses_errors_to_none mathModel
    rfl).2.2.2.2.2.2.2.2.2.2.1⟩

/-- C1 counterexample: the division-by-zero failure of `1/x` at `x = 0`,
the empty-expression failure, and the `import os` failure all produce the
identical observable result `None` — the evaluator does not fail "with a
distinct typed error identifying the cause" at its interface. -/
theorem eval_expression_no_distinct_typed_errors_counterexample :
    eval_expression mathModel "1/x" 0 = .noneVal
    ∧ eval_expression mathModel "" 0 = .noneVal
    ∧ eval_expression mathModel "import os" 0 = .noneVal
    ∧ eval_expression mathModel "1/x" 0 = eval_expression mathModel "" 0 :=
  ⟨rfl, rfl, rfl, rfl⟩

/-! ## `main.py`: the generation driver -/

/-- `np.linspace(a, b, n)`: `n` evenly spaced points including both
endpoints. -/
def linspace (a b : ℚ) (n : Nat) : List ℚ :=
  if n = 0 then []
  else if n = 1 then [a]
  else (List.range n).map (fun i => a + (b - a) * (i : ℚ) / ((n : ℚ) - 1))

/-- How `generate_midi_from_function_string` can fail: the explicit
`ValueError("Function evaluation failed")` raised when a sample is `None`,
or an exception escaping the evaluator during the sampling comprehension. -/
inductive GenError where
  | evalFailed
  | uncaught (e : PyExc)
deriving DecidableEq

/-- The comprehension `[evaluator.eval_expression(function_str, x) for x in
x_vals]`: sequential; an uncaught exception aborts it immediately. -/
def evalSamples (B : MathBackend) (fs : String) :
    List ℚ → Except PyExc (List (Option ℚ))
  | [] => .ok []
  | x :: xs =>
    match eval_expression B fs x with
    | .val q =>
      match evalSamples B fs xs with
      | .error e => .error e
      | .ok r => .ok (some q :: r)
    | .noneVal =>
      match evalSamples B fs xs with
      | .error e => .error e
      | .ok r => .ok (none :: r)
    | .crash e => .error e

/-- `generate_midi_from_function_string`: sample the function over the
linspace; if any sample is `None`, raise `ValueError("Function evaluation
failed")` before any MIDI object is constructed; otherwise delegate to
`function_to_midi`. -/
def generate_midi_from_function_string (B : MathBackend) (randU : Nat → ℚ)
    (randI : Nat → ℤ) (function_str : String) (x_range : ℚ × ℚ)
    (num_notes : Nat) (cfg : GenConfig) : Except GenError MIDIFile :=
  match evalSamples B function_str (linspace x_range.1 x_range.2 num_notes) with
  | .error e => .error (.uncaught e)
  | .ok y_vals =>
    if y_vals.any Option.isNone then .error .evalFailed
    else .ok (function_to_midi cfg randU randI y_vals.reduceOption)

theorem evalSamples_ok_none_mem {B : MathBackend} {fs : String} {xs : List ℚ}
    {ys : List (Option ℚ)} (hs : evalSamples B fs xs = .ok ys) :
    ∀ x ∈ xs, eval_expression B fs x = .noneVal → none ∈ ys := by
  induction xs generalizing ys with
  | nil => intro x hx; cases hx
  | cons a as ih =>
    intro x hx hev
    rw [evalSamples] at hs
    rcases List.mem_cons.mp hx with rfl | hx2
    · rw [hev] at hs
      cases hr : evalSamples B fs as with
      | error e => rw [hr] at hs; cases hs
      | ok rs =>
        rw [hr] at hs
        have : none :: rs = ys := Except.ok.inj hs
        rw [← this]
        exact List.mem_cons_self none rs
    · cases he : eval_expression B fs a with
      | val q =>
        rw [he] at hs
        cases hr : evalSamples B fs as with
        | error e => rw [hr] at hs; cases hs
        | ok rs =>
          rw [hr] at hs
          have : some q :: rs = ys := Except.ok.inj hs
          rw [← this]
          exact List.mem_cons_of_mem _ (ih hr x hx2 hev)
      | noneVal =>
        rw [he] at hs
        cases hr : evalSamples B fs as with
        | error e => rw [hr] at hs; cases hs
        | ok rs =>
          rw [hr] at hs
          have : (none : Option ℚ) :: rs = ys := Except.ok.inj hs
          rw [← this]
          exact List.mem_cons_self none rs
      | crash e => rw [he] at hs; cases hs

/-! ## C2 -/

/-- C2: if any sample in the evaluated sample sequence is undefined
(evaluation returned a failure), the whole generation request fails with an
error before any `MIDIFile` is constructed — the result is an `error`, not
a MIDI object. -/
theorem generation_aborts_on_failed_sample (B : MathBackend) (u : Nat → ℚ)
    (w : Nat → ℤ) (fs : String) (a b : ℚ) (n : Nat) (cfg : GenConfig)
    (h : ∃ x ∈ linspace a b n, eval_expression B fs x = .noneVal) :
    ∃ er, generate_midi_from_function_string B u w fs (a, b) n cfg
      = .error er := by
  obtain ⟨x, hx, hev⟩ := h
  unfold generate_midi_from_function_string
  cases hs : evalSamples B fs (linspace (a, b).1 (a, b).2 n) with
  | error e => exact ⟨.uncaught e, rfl⟩
  | ok ys =>
    have hmem : none ∈ ys := evalSamples_ok_none_mem hs x hx hev
    have hany : ys.any Option.isNone = true :=
      List.any_eq_true.mpr ⟨none, hmem, rfl⟩
    exact ⟨.evalFailed, by simp [hany]⟩

/-- Witness for C2: `log(x)` sampled over `linspace(-1, 1, 3)` fails at
`x = -1` (`math.log` domain error, caught into `None`), so the whole
request errors out. -/
theorem generation_aborts_on_failed_sample_witness :
    (∃ x ∈ linspace (-1) 1 3, eval_expression mathModel "log(x)" x = .noneVal)
    ∧ ∃ er, generate_midi_from_function_string mathModel (fun _ => 0)
        (fun _ => 0) "log(x)" (-1, 1) 3 chromCfg = .error er := by
  have hlin : linspace (-1) 1 3 = [-1, 0, 1] := by
    norm_num [linspace, List.range_succ]
  have hx : (-1 : ℚ) ∈ linspace (-1) 1 3 := by
    rw [hlin]
    exact List.mem_cons_self _ _
  have hh : ∃ x ∈ linspace (-1) 1 3,
      eval_expression mathModel "log(x)" x = .noneVal := ⟨-1, hx, rfl⟩
  exact ⟨hh, generation_aborts_on_failed_sample mathModel (fun _ => 0)
    (fun _ => 0) "log(x)" (-1) 1 3 chromCfg hh⟩
